import Mathlib

/-
Verification of the elog classifier and markup transformer of elogviewer
(src/elogviewer.py, version 2.6), shallowly embedded over lists of
characters.  Text is modelled as List Char; the regular expressions of the
source are literal alternations and character classes without backtracking,
so each is embedded as a deterministic left-to-right scanner with an
explicit fuel argument (fuel = input length suffices because every
substitution step consumes at least one input character).
-/

namespace Elogviewer

/-- Text, one character per element, as decoded by the helper called
underscore in the source (ASCII-transparent). -/
abbrev Chars := List Char

/-- The severity enumeration EClass of elogviewer.py lines 112-118:
Error = 4, Warning = 3, Log = 2, Info = 1, QA = 0. -/
inductive EClass
  | Error
  | Warning
  | Log
  | Info
  | QA
deriving DecidableEq

/-- Numeric tier of each severity, the IntEnum values of the source. -/
def EClass.value : EClass → Nat
  | .Error => 4
  | .Warning => 3
  | .Log => 2
  | .Info => 1
  | .QA => 0

/-- The five marker strings of the alternation in the regular expression
of Elog.fromFilename, line 248, in the order the alternation lists them. -/
def markerStrings : List Chars :=
  ["ERROR:".toList, "WARN:".toList, "LOG:".toList, "INFO:".toList, "QA:".toList]

/-- Marker strings paired with the severity the chain of conditionals in
Elog.fromFilename (lines 249-258) assigns to each. -/
def markerTable : List (Chars × EClass) :=
  [("ERROR:".toList, EClass.Error), ("WARN:".toList, EClass.Warning),
   ("LOG:".toList, EClass.Log), ("INFO:".toList, EClass.Info),
   ("QA:".toList, EClass.QA)]

/-- Left-to-right scan of re.findall over the literal alternation
ERROR:|WARN:|LOG:|INFO:|QA: (line 248).  At each position the first
alternative that matches is emitted and the scan resumes after it;
otherwise the scan advances one character.  Fuel-based: one unit of fuel
per step, and every step consumes at least one character. -/
def findAllAux : Nat → Chars → List Chars
  | 0, _ => []
  | _ + 1, [] => []
  | fuel + 1, c :: cs =>
    match markerStrings.find? (fun m => m.isPrefixOf (c :: cs)) with
    | some m => m :: findAllAux fuel ((c :: cs).drop m.length)
    | none => findAllAux fuel cs

/-- re.findall of the marker alternation over the whole text. -/
def findAll (s : Chars) : List Chars := findAllAux s.length s

/-- The classifier of Elog.fromFilename, lines 247-260: collect all marker
occurrences with findall, then test membership from ERROR: down to QA:,
defaulting to Info. -/
def fromFilenameEClass (text : Chars) : EClass :=
  let eClasses := findAll text
  if "ERROR:".toList ∈ eClasses then EClass.Error
  else if "WARN:".toList ∈ eClasses then EClass.Warning
  else if "LOG:".toList ∈ eClasses then EClass.Log
  else if "INFO:".toList ∈ eClasses then EClass.Info
  else if "QA:".toList ∈ eClasses then EClass.QA
  else EClass.Info

/-- Specification-side restatement of the classifier for the refinement
comparison of claim C2: a marker counts wherever its string occurs as a
substring of the text, with the same priority chain and default as the
source.  This definition follows the semantic reading, to be proved equal
to fromFilenameEClass. -/
def classifyBySubstring (text : Chars) : EClass :=
  if "ERROR:".toList <:+: text then EClass.Error
  else if "WARN:".toList <:+: text then EClass.Warning
  else if "LOG:".toList <:+: text then EClass.Log
  else if "INFO:".toList <:+: text then EClass.Info
  else if "QA:".toList <:+: text then EClass.QA
  else EClass.Info

/-- Whitespace for the bytes strip() call on line 180 and for the regex
class of a backslash-s (ASCII fragment): space, tab, newline, carriage
return, vertical tab, form feed. -/
def isPyWhitespace (c : Char) : Bool :=
  c = ' ' || c = '\t' || c = '\n' || c = '\r' || c = '\x0b' || c = '\x0c'

/-- Python str.strip / bytes.strip on a line: drop leading and trailing
whitespace. -/
def strip (s : Chars) : Chars :=
  ((s.dropWhile isPyWhitespace).reverse.dropWhile isPyWhitespace).reverse

/-- Python str.split on a colon with no maxsplit (line 183): splits at
every colon, keeping empty parts; the empty string splits to one empty
part. -/
def splitOnColon : Chars → List Chars
  | [] => [[]]
  | c :: cs =>
    if c = ':' then [] :: splitOnColon cs
    else
      match splitOnColon cs with
      | [] => [[c]]
      | p :: ps => (c :: p) :: ps

/-- The header recognition of the try block in the html function, lines
182-195: the tuple unpacking of line.split into two names raises
ValueError unless the split has exactly two parts, and the chain of
comparisons raises ValueError when the first part is none of the five
marker names. -/
def headerOfParts : List Chars → Option (EClass × Chars)
  | [e, stage] =>
    if e = "ERROR".toList then some (EClass.Error, stage)
    else if e = "WARN".toList then some (EClass.Warning, stage)
    else if e = "LOG".toList then some (EClass.Log, stage)
    else if e = "INFO".toList then some (EClass.Info, stage)
    else if e = "QA".toList then some (EClass.QA, stage)
    else none
  | _ => none

/-- A line is a section header when splitting it at every colon yields
exactly a marker name and a stage. -/
def parseHeader (line : Chars) : Option (EClass × Chars) :=
  headerOfParts (splitOnColon line)

/-- Marker names without the colon, paired with their severities, for the
header grammar of the html function. -/
def headerTable : List (Chars × EClass) :=
  [("ERROR".toList, EClass.Error), ("WARN".toList, EClass.Warning),
   ("LOG".toList, EClass.Log), ("INFO".toList, EClass.Info),
   ("QA".toList, EClass.QA)]

/-- One output fragment appended to the list named lines in the html
function.  body l stands for the string made of l followed by a space and
a br tag (line 198); close stands for the closing p tag (lines 211 and
213); header ec stage stands for the section header string holding the h3
block and the opening p tag (lines 201-208). -/
inductive Frag
  | body (line : Chars)
  | close
  | header (ec : EClass) (stage : Chars)
deriving DecidableEq

/-- The line loop of the html function, lines 179-212, carrying the
accumulated fragment list.  A header line first closes the previous
section when the accumulator is nonempty, then opens a new one; any other
line appends a body fragment holding the stripped line. -/
def htmlLoop : List Frag → List Chars → List Frag
  | acc, [] => acc
  | acc, l :: ls =>
    match parseHeader (strip l) with
    | some (ec, stage) =>
      htmlLoop ((if acc.isEmpty then acc else acc ++ [Frag.close])
        ++ [Frag.header ec stage]) ls
    | none => htmlLoop (acc ++ [Frag.body (strip l)]) ls

/-- The fragment list the html function assembles for a sequence of input
lines: the loop over the lines followed by the unconditional final closing
p tag of line 213.  The empty string appended on line 214 only affects the
join and is not a delimiter or content fragment. -/
def htmlFrags (ls : List Chars) : List Frag :=
  htmlLoop [] ls ++ [Frag.close]

/-- Recognizer for the closing delimiter fragment. -/
def Frag.isClose : Frag → Bool
  | .close => true
  | _ => false

/-- Recognizer for the header fragment; each one carries exactly one
opening p tag in the source's string. -/
def Frag.isHeader : Frag → Bool
  | .header _ _ => true
  | _ => false

/-- Number of closing delimiters emitted. -/
def countClose (fr : List Frag) : Nat := fr.countP Frag.isClose

/-- Number of section openings emitted. -/
def countHeader (fr : List Frag) : Nat := fr.countP Frag.isHeader

/-- Parameter characters of the ANSI escape pattern, the class of digits
and semicolon on line 217. -/
def isAnsiParam (c : Char) : Bool :=
  ('0' ≤ c && c ≤ '9') || c = ';'

/-- Match of the ANSI pattern (escape, opening bracket, one or more
digits or semicolons, the letter m) at the head of the input; returns the
rest after the match.  The greedy parameter run needs no backtracking
because the letter m is not a parameter character. -/
def tryAnsi : Chars → Option Chars
  | c1 :: c2 :: rest =>
    if c1 = '\x1b' ∧ c2 = '[' then
      if (rest.takeWhile isAnsiParam).isEmpty then none
      else
        match rest.dropWhile isAnsiParam with
        | c3 :: rest2 => if c3 = 'm' then some rest2 else none
        | [] => none
    else none
  | _ => none

/-- re.sub of the ANSI pattern with the empty replacement (lines 216-217):
delete every left-to-right nonoverlapping match. -/
def ansiStripAux : Nat → Chars → Chars
  | 0, s => s
  | _ + 1, [] => []
  | fuel + 1, c :: cs =>
    match tryAnsi (c :: cs) with
    | some rest => ansiStripAux fuel rest
    | none => c :: ansiStripAux fuel cs

/-- The ANSI color stripping substitution of the html function. -/
def ansiStrip (s : Chars) : Chars := ansiStripAux s.length s

/-- Digit class of the bug pattern. -/
def isDigitRe (c : Char) : Bool := '0' ≤ c && c ≤ '9'

/-- Match of the bug pattern (lowercase b u g, one or more whitespace, a
hash sign, one or more digits) at the head of the input, lines 221-224;
returns the captured digits and the rest after the match.  The greedy runs
need no backtracking because the hash sign is not whitespace and nothing
follows the digit group. -/
def tryBug : Chars → Option (Chars × Chars)
  | c1 :: c2 :: c3 :: rest =>
    if c1 = 'b' ∧ c2 = 'u' ∧ c3 = 'g' then
      if (rest.takeWhile isPyWhitespace).isEmpty then none
      else
        match rest.dropWhile isPyWhitespace with
        | c4 :: rest2 =>
          if c4 = '#' then
            if (rest2.takeWhile isDigitRe).isEmpty then none
            else some (rest2.takeWhile isDigitRe, rest2.dropWhile isDigitRe)
          else none
        | [] => none
    else none
  | _ => none

/-- The replacement template of the bug substitution: an anchor to the bug
tracker keyed by the digits, with the literal lowercase visible text. -/
def bugRepl (ds : Chars) : Chars :=
  "<a href=\"https://bugs.gentoo.org/".toList ++ ds
    ++ "\">bug #".toList ++ ds ++ "</a>".toList

/-- re.sub of the bug pattern, left-to-right, resuming after each match. -/
def bugSubAux : Nat → Chars → Chars
  | 0, s => s
  | _ + 1, [] => []
  | fuel + 1, c :: cs =>
    match tryBug (c :: cs) with
    | some (ds, rest) => bugRepl ds ++ bugSubAux fuel rest
    | none => c :: bugSubAux fuel cs

/-- The bug hyperlinking substitution of the html function. -/
def bugSub (s : Chars) : Chars := bugSubAux s.length s

/-- First character class of the package pattern: lowercase letters and
the digit one. -/
def isAz1 (c : Char) : Bool := ('a' ≤ c && c ≤ 'z') || c = '1'

/-- Lowercase letters and digits, the second class of the package
pattern. -/
def isAz09 (c : Char) : Bool :=
  ('a' ≤ c && c ≤ 'z') || ('0' ≤ c && c ≤ '9')

/-- Lowercase letters, digits and hyphen, the class after the slash in
the package pattern. -/
def isAz09Dash (c : Char) : Bool := isAz09 c || c = '-'

/-- The trailing class of the package pattern: whitespace or one of the
punctuation characters comma, period, colon, semicolon, bang, question
mark. -/
def isPunctAfter (c : Char) : Bool :=
  isPyWhitespace c || c = ',' || c = '.' || c = ':' || c = ';' || c = '!' || c = '?'

/-- Match of the package pattern of lines 226-229 at the head of the
input: a whitespace character, a nonempty run of the first class, a
hyphen, a nonempty run of letters and digits, a slash, a nonempty run of
the dash class, and a trailing whitespace or punctuation character.
Returns the three captured groups and the rest after the match.  Each
greedy run is followed by a required character outside its class, so no
backtracking arises. -/
def tryPkg : Chars → Option (Char × Chars × Char × Chars)
  | [] => none
  | c0 :: rest =>
    if isPyWhitespace c0 then
      if (rest.takeWhile isAz1).isEmpty then none
      else
        match rest.dropWhile isAz1 with
        | d :: t2 =>
          if d = '-' then
            if (t2.takeWhile isAz09).isEmpty then none
            else
              match t2.dropWhile isAz09 with
              | sl :: t4 =>
                if sl = '/' then
                  if (t4.takeWhile isAz09Dash).isEmpty then none
                  else
                    match t4.dropWhile isAz09Dash with
                    | c4 :: t6 =>
                      if isPunctAfter c4 then
                        some (c0,
                          rest.takeWhile isAz1 ++ '-' :: t2.takeWhile isAz09
                            ++ '/' :: t4.takeWhile isAz09Dash,
                          c4, t6)
                      else none
                    | [] => none
                else none
              | [] => none
          else none
        | [] => none
    else none

/-- The replacement template of the package substitution: an anchor to
the package index keyed by the whole captured atom, with the atom as the
visible text. -/
def pkgRepl (atom : Chars) : Chars :=
  "<a href=\"http://packages.gentoo.org/package/".toList ++ atom
    ++ "\">".toList ++ atom ++ "</a>".toList

/-- re.sub of the package pattern, left-to-right; the whitespace and
trailing punctuation captures are reemitted around the anchor, and the
scan resumes after the consumed trailing character. -/
def pkgSubAux : Nat → Chars → Chars
  | 0, s => s
  | _ + 1, [] => []
  | fuel + 1, c :: cs =>
    match tryPkg (c :: cs) with
    | some (c0, atom, c4, rest) => c0 :: (pkgRepl atom ++ c4 :: pkgSubAux fuel rest)
    | none => c :: pkgSubAux fuel cs

/-- The package hyperlinking substitution of the html function. -/
def pkgSub (s : Chars) : Chars := pkgSubAux s.length s

/-- Index of the last occurrence of a character, counted from the front,
as in str.rfind. -/
def lastIndexOf (c : Char) : Chars → Option Nat
  | [] => none
  | x :: xs =>
    match lastIndexOf c xs with
    | some i => some (i + 1)
    | none => if x = c then some 0 else none

/-- os.path.splitext for posix paths: split at the last dot when it lies
after the last slash and the base name holds a character other than a dot
before it; otherwise the extension is empty. -/
def splitext (p : Chars) : Chars × Chars :=
  match lastIndexOf '.' p with
  | none => (p, [])
  | some d =>
    let start :=
      match lastIndexOf '/' p with
      | some si => si + 1
      | none => 0
    if start ≤ d ∧ ((p.drop start).take (d - start)).any (fun c => c != '.') then
      (p.take d, p.drop d)
    else (p, [])

/-- The placeholder document the file helper returns on an unsupported
extension (KeyError branch, lines 156-164), decoded; the indentation and
newlines of the triple-quoted bytes literal are kept. -/
def unsupportedFormatDoc : Chars :=
  ("\n                <!-- set eclass: ERROR: -->\n                "
    ++ "<h3>Unsupported format</h3>\n                "
    ++ "The selected elog is in an unsupported format.\n                ").toList

/-- The placeholder document the file helper returns when the file cannot
be opened (IOError branch, lines 165-173), decoded. -/
def couldNotOpenDoc : Chars :=
  ("\n                <!-- set eclass: ERROR: -->\n                "
    ++ "<h3>File does not open</h3>\n                "
    ++ "The selected elog could not be opened.\n                ").toList

/-- The file helper of lines 150-173.  The external file system is
modelled by fs, returning the decoded contents of an openable file and
none when opening raises IOError.  An extension outside the dictionary of
the three supported ones raises KeyError, answered by the unsupported
format placeholder; a failed open is answered by the could-not-open
placeholder. -/
def fileDoc (filename : Chars) (fs : Chars → Option Chars) : Chars :=
  if (splitext filename).2 = ".gz".toList ∨ (splitext filename).2 = ".bz2".toList
      ∨ (splitext filename).2 = ".log".toList then
    match fs filename with
    | some content => content
    | none => couldNotOpenDoc
  else unsupportedFormatDoc

/-
Classifier lemmas.  The scan of findAllAux finds a marker if and only if
the marker occurs as a substring: soundness is a direct induction, and
completeness rests on the five markers being pairwise non-overlapping
(no proper suffix of one is comparable with a prefix of another), a
finite fact settled by decide.
-/

lemma markerNonNil : ∀ m ∈ markerStrings, m ≠ [] := by decide

lemma markerLenBounds : ∀ m ∈ markerStrings, 1 ≤ m.length ∧ m.length ≤ 6 := by decide

lemma markerMutualNoPre : ∀ m ∈ markerStrings, ∀ m2 ∈ markerStrings,
    m <+: m2 → m = m2 := by decide

lemma markerNoOverlap : ∀ m0 ∈ markerStrings, ∀ m ∈ markerStrings, ∀ t : Fin 6,
    0 < t.val → t.val < m0.length →
    ¬ (m <+: m0.drop t.val ∨ m0.drop t.val <+: m) := by decide

lemma no_marker_overlap (m0 m s : Chars) (t : Nat) (h0 : m0 ∈ markerStrings)
    (hm : m ∈ markerStrings) (hp0 : m0 <+: s) (hpt : m <+: s.drop t)
    (ht0 : 0 < t) (htl : t < m0.length) : False := by
  obtain ⟨r, hr⟩ := hp0
  have hdt : s.drop t = m0.drop t ++ r := by
    rw [← hr]
    exact List.drop_append_of_le_length (Nat.le_of_lt htl)
  rw [hdt] at hpt
  have hor := List.prefix_or_prefix_of_prefix hpt (List.prefix_append (m0.drop t) r)
  have hbound : t < 6 := lt_of_lt_of_le htl (markerLenBounds m0 h0).2
  exact markerNoOverlap m0 h0 m hm ⟨t, hbound⟩ ht0 htl hor

lemma findAllAux_sound : ∀ (fuel : Nat) (s m : Chars),
    m ∈ findAllAux fuel s → m ∈ markerStrings ∧ m <:+: s := by
  intro fuel
  induction fuel with
  | zero => intro s m h; simp [findAllAux] at h
  | succ f ih =>
    intro s m h
    cases s with
    | nil => simp [findAllAux] at h
    | cons c cs =>
      cases hfind : markerStrings.find? (fun m => m.isPrefixOf (c :: cs)) with
      | some m0 =>
        simp only [findAllAux, hfind] at h
        rcases List.mem_cons.mp h with rfl | h2
        · refine ⟨List.mem_of_find?_eq_some hfind, ?_⟩
          have hp : m.isPrefixOf (c :: cs) = true := by
            simpa using List.find?_some hfind
          exact ( List.isPrefixOf_iff_prefix.mp hp).isInfix
        · obtain ⟨hmem, hinf⟩ := ih _ _ h2
          exact ⟨hmem, hinf.trans (List.drop_suffix _ _).isInfix⟩
      | none =>
        simp only [findAllAux, hfind] at h
        obtain ⟨hmem, hinf⟩ := ih _ _ h
        exact ⟨hmem, hinf.trans (List.suffix_cons c cs).isInfix⟩

lemma findAllAux_complete : ∀ (fuel : Nat) (s : Chars) (t : Nat) (m : Chars),
    s.length ≤ fuel → m ∈ markerStrings → m <+: s.drop t →
    m ∈ findAllAux fuel s := by
  intro fuel
  induction fuel with
  | zero =>
    intro s t m hlen hm hp
    have hs : s = [] := List.eq_nil_of_length_eq_zero (Nat.le_zero.mp hlen)
    subst hs
    rw [List.drop_nil] at hp
    exact absurd (List.prefix_nil.mp hp) (markerNonNil m hm)
  | succ f ih =>
    intro s t m hlen hm hp
    cases s with
    | nil =>
      rw [List.drop_nil] at hp
      exact absurd (List.prefix_nil.mp hp) (markerNonNil m hm)
    | cons c cs =>
      cases hfind : markerStrings.find? (fun m => m.isPrefixOf (c :: cs)) with
      | some m0 =>
        simp only [findAllAux, hfind]
        have h0mem := List.mem_of_find?_eq_some hfind
        have h0p : m0 <+: c :: cs := by
          have := List.find?_some hfind
          exact List.isPrefixOf_iff_prefix.mp (by simpa using this)
        cases t with
        | zero =>
          rw [List.drop_zero] at hp
          rcases List.prefix_or_prefix_of_prefix hp h0p with h1 | h1
          · exact List.mem_cons.mpr (Or.inl (markerMutualNoPre m hm m0 h0mem h1))
          · exact List.mem_cons.mpr (Or.inl (markerMutualNoPre m0 h0mem m hm h1).symm)
        | succ t1 =>
          by_cases hlt : t1 + 1 < m0.length
          · exact absurd hp (fun hp2 =>
              no_marker_overlap m0 m (c :: cs) (t1 + 1) h0mem hm h0p hp2
                (Nat.succ_pos t1) hlt)
          · push_neg at hlt
            have hdrop : (c :: cs).drop (t1 + 1)
                = ((c :: cs).drop m0.length).drop (t1 + 1 - m0.length) := by
              rw [List.drop_drop]
              congr 1
              omega
            rw [hdrop] at hp
            have hlen2 : ((c :: cs).drop m0.length).length ≤ f := by
              rw [List.length_drop]
              have h1 := (markerLenBounds m0 h0mem).1
              simp only [List.length_cons] at hlen ⊢
              omega
            exact List.mem_cons.mpr (Or.inr (ih _ _ _ hlen2 hm hp))
      | none =>
        cases t with
        | zero =>
          rw [List.drop_zero] at hp
          have hnone := List.find?_eq_none.mp hfind m hm
          exact absurd ( List.isPrefixOf_iff_prefix.mpr hp) (by simpa using hnone)
        | succ t1 =>
          simp only [findAllAux, hfind]
          rw [List.drop_succ_cons] at hp
          refine ih cs t1 m ?_ hm hp
          simp only [List.length_cons] at hlen
          omega

lemma mem_findAll_iff (m : Chars) (hm : m ∈ markerStrings) (s : Chars) :
    m ∈ findAll s ↔ m <:+: s := by
  constructor
  · intro h
    exact (findAllAux_sound s.length s m h).2
  · intro h
    obtain ⟨a, b, hab⟩ := h
    have hd : m <+: s.drop a.length := by
      rw [← hab, List.append_assoc, List.drop_left]
      exact List.prefix_append m b
    exact findAllAux_complete s.length s a.length m (le_refl _) hm hd

lemma classify_eq_bySubstring (s : Chars) :
    fromFilenameEClass s = classifyBySubstring s := by
  have h1 := mem_findAll_iff "ERROR:".toList (by decide) s
  have h2 := mem_findAll_iff "WARN:".toList (by decide) s
  have h3 := mem_findAll_iff "LOG:".toList (by decide) s
  have h4 := mem_findAll_iff "INFO:".toList (by decide) s
  have h5 := mem_findAll_iff "QA:".toList (by decide) s
  simp only [fromFilenameEClass, classifyBySubstring, h1, h2, h3, h4, h5]

/-
Lemmas about the colon split and the header grammar.
-/

lemma splitOnColon_ne_nil : ∀ s : Chars, splitOnColon s ≠ [] := by
  intro s
  induction s with
  | nil => simp [splitOnColon]
  | cons c cs ih =>
    by_cases hc : c = ':'
    · simp [splitOnColon, hc]
    · simp only [splitOnColon, if_neg hc]
      cases hcs : splitOnColon cs <;> simp

lemma splitOnColon_no_colon : ∀ s : Chars, ':' ∉ s → splitOnColon s = [s] := by
  intro s
  induction s with
  | nil => intro _; rfl
  | cons c cs ih =>
    intro h
    have hc : c ≠ ':' := fun e => h (by rw [e]; exact List.mem_cons_self _ _)
    have hcs : ':' ∉ cs := fun e => h (List.mem_cons_of_mem c e)
    simp only [splitOnColon, if_neg hc, ih hcs]

lemma splitOnColon_append (w r : Chars) (hw : ':' ∉ w) :
    splitOnColon (w ++ ':' :: r) = w :: splitOnColon r := by
  induction w with
  | nil => simp [splitOnColon]
  | cons c w2 ih =>
    have hc : c ≠ ':' := fun e => hw (by rw [e]; exact List.mem_cons_self _ _)
    have hw2 : ':' ∉ w2 := fun e => hw (List.mem_cons_of_mem c e)
    have hrec := ih hw2
    simp only [List.cons_append, splitOnColon, if_neg hc]
    rw [show w2.append (':' :: r) = w2 ++ ':' :: r from rfl, hrec]

lemma splitOnColon_with_colon : ∀ s : Chars, ':' ∈ s →
    ∃ a b rest, splitOnColon s = a :: b :: rest := by
  intro s
  induction s with
  | nil => intro h; simp at h
  | cons c cs ih =>
    intro h
    by_cases hc : c = ':'
    · subst hc
      obtain ⟨p, ps, hps⟩ := List.exists_cons_of_ne_nil (splitOnColon_ne_nil cs)
      exact ⟨[], p, ps, by simp [splitOnColon, hps]⟩
    · have h2 : ':' ∈ cs := by
        rcases List.mem_cons.mp h with e | e
        · exact absurd e.symm hc
        · exact e
      obtain ⟨a, b, rest, hr⟩ := ih h2
      refine ⟨c :: a, b, rest, ?_⟩
      simp only [splitOnColon, if_neg hc, hr]

/-
The ANSI strip is the identity on text holding no escape character.
-/

lemma tryAnsi_none_of_head (c : Char) (cs : Chars) (h : c ≠ '\x1b') :
    tryAnsi (c :: cs) = none := by
  cases cs with
  | nil => rfl
  | cons c2 rest => simp [tryAnsi, h]

lemma ansiStripAux_no_esc : ∀ (fuel : Nat) (s : Chars),
    '\x1b' ∉ s → ansiStripAux fuel s = s := by
  intro fuel
  induction fuel with
  | zero => intro s _; rfl
  | succ f ih =>
    intro s h
    cases s with
    | nil => rfl
    | cons c cs =>
      have hc : c ≠ '\x1b' := fun e => h (by rw [← e]; exact List.mem_cons_self _ _)
      have hcs : '\x1b' ∉ cs := fun e => h (List.mem_cons_of_mem c e)
      simp only [ansiStripAux, tryAnsi_none_of_head c cs hc, ih cs hcs]

/-
Claim theorems.
-/

/-- C1: for every log text that contains some marker string and no marker
of strictly higher severity value, the classifier of Elog.fromFilename
returns that marker's severity; the ordering is Error above Warning above
Log above Info above QA. -/
theorem classifier_returns_highest_severity (text : Chars) (p : Chars × EClass)
    (hp : p ∈ markerTable) (hocc : p.1 <:+: text)
    (hhigh : ∀ q ∈ markerTable, p.2.value < q.2.value → ¬ q.1 <:+: text) :
    fromFilenameEClass text = p.2 := by
  rw [classify_eq_bySubstring]
  simp only [markerTable, List.mem_cons, List.not_mem_nil, or_false] at hp
  rcases hp with rfl | rfl | rfl | rfl | rfl
  · have ho : "ERROR:".toList <:+: text := hocc
    unfold classifyBySubstring
    rw [if_pos ho]
  · have h1 : ¬ "ERROR:".toList <:+: text :=
      hhigh ("ERROR:".toList, EClass.Error) (by decide) (by decide)
    have ho : "WARN:".toList <:+: text := hocc
    unfold classifyBySubstring
    rw [if_neg h1, if_pos ho]
  · have h1 : ¬ "ERROR:".toList <:+: text :=
      hhigh ("ERROR:".toList, EClass.Error) (by decide) (by decide)
    have h2 : ¬ "WARN:".toList <:+: text :=
      hhigh ("WARN:".toList, EClass.Warning) (by decide) (by decide)
    have ho : "LOG:".toList <:+: text := hocc
    unfold classifyBySubstring
    rw [if_neg h1, if_neg h2, if_pos ho]
  · have h1 : ¬ "ERROR:".toList <:+: text :=
      hhigh ("ERROR:".toList, EClass.Error) (by decide) (by decide)
    have h2 : ¬ "WARN:".toList <:+: text :=
      hhigh ("WARN:".toList, EClass.Warning) (by decide) (by decide)
    have h3 : ¬ "LOG:".toList <:+: text :=
      hhigh ("LOG:".toList, EClass.Log) (by decide) (by decide)
    have ho : "INFO:".toList <:+: text := hocc
    unfold classifyBySubstring
    rw [if_neg h1, if_neg h2, if_neg h3, if_pos ho]
  · have h1 : ¬ "ERROR:".toList <:+: text :=
      hhigh ("ERROR:".toList, EClass.Error) (by decide) (by decide)
    have h2 : ¬ "WARN:".toList <:+: text :=
      hhigh ("WARN:".toList, EClass.Warning) (by decide) (by decide)
    have h3 : ¬ "LOG:".toList <:+: text :=
      hhigh ("LOG:".toList, EClass.Log) (by decide) (by decide)
    have h4 : ¬ "INFO:".toList <:+: text :=
      hhigh ("INFO:".toList, EClass.Info) (by decide) (by decide)
    have ho : "QA:".toList <:+: text := hocc
    unfold classifyBySubstring
    rw [if_neg h1, if_neg h2, if_neg h3, if_neg h4, if_pos ho]

/-- Witness for C1: a text holding QA and WARN markers classifies as
Warning. -/
theorem classifier_returns_highest_severity_witness :
    fromFilenameEClass "QA: setup\nWARN: compile".toList = EClass.Warning :=
  classifier_returns_highest_severity "QA: setup\nWARN: compile".toList
    ("WARN:".toList, EClass.Warning) (by decide) (by decide) (by decide)

/-- C2 counterexample: a marker occurring only in the middle of a line
does change the returned severity, so the anchored-match reading of the
claim is false of the code; with line-start anchoring this text would
classify as the Info default. -/
theorem classifier_counts_midline_marker :
    fromFilenameEClass "elog says ERROR: mid-line".toList = EClass.Error ∧
    EClass.Error ≠ EClass.Info := by decide

/-- C2 amended: the classifier counts a marker wherever its string occurs
as a substring of the text, with no line-start anchoring and no required
whitespace after the colon; it coincides with the substring-presence
classifier everywhere. -/
theorem classifier_equals_substring_classifier :
    ∀ s : Chars, fromFilenameEClass s = classifyBySubstring s :=
  classify_eq_bySubstring

/-- C3: a text in which no marker string occurs classifies as the default
severity Info, the lowest informational tier. -/
theorem classifier_defaults_to_info (s : Chars)
    (h : ∀ m ∈ markerStrings, ¬ m <:+: s) :
    fromFilenameEClass s = EClass.Info := by
  rw [classify_eq_bySubstring]
  have h1 := h "ERROR:".toList (by decide)
  have h2 := h "WARN:".toList (by decide)
  have h3 := h "LOG:".toList (by decide)
  have h4 := h "INFO:".toList (by decide)
  have h5 := h "QA:".toList (by decide)
  unfold classifyBySubstring
  rw [if_neg h1, if_neg h2, if_neg h3, if_neg h4, if_neg h5]

/-- Witness for C3 at a concrete marker-free text. -/
theorem classifier_defaults_to_info_witness :
    fromFilenameEClass "nothing to see here".toList = EClass.Info :=
  classifier_defaults_to_info "nothing to see here".toList (by decide)

/-- C4 (evaluation at the failing input): an input whose first line is not
a header yields one closing delimiter and no opening one, so the final
unconditional close of line 213 is unmatched and the output is not
balanced. -/
theorem html_emits_unmatched_close :
    htmlFrags ["hello".toList] = [Frag.body "hello".toList, Frag.close] ∧
    countHeader (htmlFrags ["hello".toList]) = 0 ∧
    countClose (htmlFrags ["hello".toList]) = 1 := by decide

/-- C5 counterexample: a header-shaped line whose stage text holds a
further colon is rendered as a body fragment, not as a section header,
because the two-name tuple unpacking of the full colon split fails. -/
theorem multi_colon_header_rendered_as_body :
    htmlFrags ["ERROR: install: failed".toList] =
      [Frag.body "ERROR: install: failed".toList, Frag.close] ∧
    countHeader (htmlFrags ["ERROR: install: failed".toList]) = 0 := by decide

/-- C5 amended: a line made of a marker name, a colon and a stage is
recognized as a section header exactly when the stage holds no further
colon; the text after the single colon is the stage, and any additional
colon demotes the line to body content. -/
theorem header_recognized_iff_single_colon (p : Chars × EClass)
    (hp : p ∈ headerTable) (stage : Chars) :
    (':' ∉ stage → parseHeader (p.1 ++ ':' :: stage) = some (p.2, stage)) ∧
    (':' ∈ stage → parseHeader (p.1 ++ ':' :: stage) = none) := by
  have neg : ∀ w : Chars, ':' ∉ w → ':' ∈ stage →
      parseHeader (w ++ ':' :: stage) = none := by
    intro w hw h
    rw [parseHeader, splitOnColon_append _ _ hw]
    obtain ⟨a, b, rest, hr⟩ := splitOnColon_with_colon stage h
    rw [hr]
    rfl
  simp only [headerTable, List.mem_cons, List.not_mem_nil, or_false] at hp
  rcases hp with rfl | rfl | rfl | rfl | rfl
  · refine ⟨fun h => ?_, neg _ (by decide)⟩
    rw [parseHeader, splitOnColon_append _ _ (by decide), splitOnColon_no_colon _ h]
    simp only [headerOfParts]
    rw [if_pos trivial]
  · refine ⟨fun h => ?_, neg _ (by decide)⟩
    rw [parseHeader, splitOnColon_append _ _ (by decide), splitOnColon_no_colon _ h]
    simp only [headerOfParts]
    rw [if_neg (by decide), if_pos trivial]
  · refine ⟨fun h => ?_, neg _ (by decide)⟩
    rw [parseHeader, splitOnColon_append _ _ (by decide), splitOnColon_no_colon _ h]
    simp only [headerOfParts]
    rw [if_neg (by decide), if_neg (by decide), if_pos trivial]
  · refine ⟨fun h => ?_, neg _ (by decide)⟩
    rw [parseHeader, splitOnColon_append _ _ (by decide), splitOnColon_no_colon _ h]
    simp only [headerOfParts]
    rw [if_neg (by decide), if_neg (by decide), if_neg (by decide), if_pos trivial]
  · refine ⟨fun h => ?_, neg _ (by decide)⟩
    rw [parseHeader, splitOnColon_append _ _ (by decide), splitOnColon_no_colon _ h]
    simp only [headerOfParts]
    rw [if_neg (by decide), if_neg (by decide), if_neg (by decide),
      if_neg (by decide), if_pos trivial]

/-- Witness for C5 at a concrete marker and stage. -/
theorem header_recognized_iff_single_colon_witness :
    parseHeader ("WARN".toList ++ ':' :: " compile phase".toList)
      = some (EClass.Warning, " compile phase".toList) :=
  (header_recognized_iff_single_colon ("WARN".toList, EClass.Warning)
    (by decide) " compile phase".toList).1 (by decide)

/-- C6 counterexample: a blank line is not skipped; it yields an empty
body fragment, and prepending it to a header line changes the rendered
fragment list. -/
theorem blank_line_produces_fragment :
    htmlFrags [[], "ERROR:x".toList] =
      [Frag.body [], Frag.close, Frag.header EClass.Error "x".toList, Frag.close] ∧
    htmlFrags [[], "ERROR:x".toList] ≠ htmlFrags ["ERROR:x".toList] := by decide

/-- C6 amended: a line that strips to nothing appends an empty body
fragment to the accumulator, in every state of the loop; it is rendered as
a lone break tag rather than skipped. -/
theorem blank_line_appends_empty_body (acc : List Frag) (l : Chars)
    (ls : List Chars) (h : strip l = []) :
    htmlLoop acc (l :: ls) = htmlLoop (acc ++ [Frag.body []]) ls := by
  simp only [htmlLoop, h]
  rfl

/-- Witness for C6 at a whitespace-only line. -/
theorem blank_line_appends_empty_body_witness :
    htmlLoop [] ["   ".toList] = htmlLoop ([] ++ [Frag.body []]) [] :=
  blank_line_appends_empty_body [] "   ".toList [] (by decide)

/-- C7 (evaluation at the failing input): the bug pattern has no
ignore-case flag, so a capitalized Bug reference is left unchanged, while
the lowercase form is hyperlinked with a hard-coded lowercase visible
text. -/
theorem bug_pattern_case_sensitive :
    bugSub "Bug #42".toList = "Bug #42".toList ∧
    bugSub "bug #42".toList =
      "<a href=\"https://bugs.gentoo.org/42\">bug #42</a>".toList := by decide

/-- C8 (evaluation at the failing input): the package pattern captures the
whole dash-class run after the slash, so the anchor target is keyed by the
atom up to the first character outside that class, here including the
leading version component, not by category and name alone. -/
theorem pkg_link_keyed_with_version :
    pkgSub " dev-lang/python-3.11 ".toList =
      (" <a href=\"http://packages.gentoo.org/package/dev-lang/python-3\">"
        ++ "dev-lang/python-3</a>.11 ").toList := by decide

/-- C9 counterexample: deleting an escape sequence can splice together a
new one, so stripping twice is not the same as stripping once. -/
theorem ansiStrip_not_idempotent :
    ansiStrip "\x1b\x1b[31m[31m".toList = "\x1b[31m".toList ∧
    ansiStrip (ansiStrip "\x1b\x1b[31m[31m".toList)
      ≠ ansiStrip "\x1b\x1b[31m[31m".toList := by decide

/-- C9 amended: on any input whose stripped form holds no residual escape
character, a second strip changes nothing. -/
theorem ansiStrip_idempotent_when_no_esc (s : Chars)
    (h : '\x1b' ∉ ansiStrip s) :
    ansiStrip (ansiStrip s) = ansiStrip s :=
  ansiStripAux_no_esc (ansiStrip s).length (ansiStrip s) h

/-- Witness for C9 at a concrete colored text. -/
theorem ansiStrip_idempotent_when_no_esc_witness :
    ansiStrip (ansiStrip "\x1b[31mhello".toList)
      = ansiStrip "\x1b[31mhello".toList :=
  ansiStrip_idempotent_when_no_esc "\x1b[31mhello".toList (by decide)

set_option maxRecDepth 8000 in
/-- C10: for a filename whose extension is unsupported, and for a
supported file the file system cannot open, the file helper returns a
placeholder document holding the ERROR marker, and classifying that
document yields the Error severity. -/
theorem unreadable_file_yields_error_doc (filename : Chars)
    (fs : Chars → Option Chars)
    (h : (splitext filename).2 ∉ [".gz".toList, ".bz2".toList, ".log".toList] ∨
      ((splitext filename).2 = ".log".toList ∧ fs filename = none)) :
    "ERROR:".toList <:+: fileDoc filename fs ∧
    fromFilenameEClass (fileDoc filename fs) = EClass.Error := by
  rcases h with h | ⟨hext, hfs⟩
  · have hcond : ¬ ((splitext filename).2 = ".gz".toList ∨
        (splitext filename).2 = ".bz2".toList ∨
        (splitext filename).2 = ".log".toList) := by
      intro hor
      exact h (by rcases hor with e | e | e <;> simp [e])
    unfold fileDoc
    rw [if_neg hcond]
    exact ⟨by decide, by decide⟩
  · unfold fileDoc
    rw [if_pos (Or.inr (Or.inr hext)), hfs]
    exact ⟨by decide, by decide⟩

/-- Witness for C10 at a concrete unsupported filename. -/
theorem unreadable_file_yields_error_doc_witness :
    "ERROR:".toList <:+: fileDoc "somefile.txt".toList (fun _ => none) ∧
    fromFilenameEClass (fileDoc "somefile.txt".toList (fun _ => none))
      = EClass.Error :=
  unreadable_file_yields_error_doc "somefile.txt".toList (fun _ => none)
    (Or.inl (by decide))

end Elogviewer
